import Mathlib

/-!
Verification of the pypath terminal file browser (src/main.py) against its
natural-language specification.  Python strings are modelled as `List Char`,
Python integers as `Int` (or `Nat` for indices), and the curses / filesystem /
subprocess collaborators as explicit environment records of pure functions.
Display side effects (`_show_status`, `_show_error_curses`, `curses.flash`,
subprocess dispatch) are modelled as an explicit event trace.
-/

set_option linter.unusedVariables false

/-- Python strings, modelled as lists of characters. -/
abbrev Str := List Char

/-- Python `s.startswith(p)` (`p` is the candidate prefix). -/
def leadsWith : Str → Str → Bool
  | [], _ => true
  | _ :: _, [] => false
  | a :: as, b :: bs => a = b && leadsWith as bs

theorem leadsWith_iff (p l : Str) : leadsWith p l = true ↔ p <+: l := by
  induction p generalizing l with
  | nil => simp [leadsWith]
  | cons a as ih =>
    cases l with
    | nil =>
      simp only [leadsWith, Bool.false_eq_true, false_iff]
      rintro ⟨t, ht⟩; cases ht
    | cons b bs =>
      simp only [leadsWith, Bool.and_eq_true, decide_eq_true_eq, ih]
      constructor
      · rintro ⟨rfl, t, rfl⟩; exact ⟨t, rfl⟩
      · rintro ⟨t, ht⟩
        injection ht with h1 h2
        exact ⟨h1, ⟨t, h2⟩⟩

theorem leadsWith_length {p l : Str} (h : leadsWith p l = true) :
    p.length ≤ l.length :=
  ((leadsWith_iff p l).mp h).length_le

theorem leadsWith_take {p l : Str} (h : leadsWith p l = true) :
    l.take p.length = p := by
  obtain ⟨t, rfl⟩ := (leadsWith_iff p l).mp h
  simp

/-- A prefix of `l.take n` is a prefix of `l`. -/
theorem leadsWith_of_take {p l : Str} {n : Nat}
    (h : leadsWith p (l.take n) = true) : leadsWith p l = true := by
  rw [leadsWith_iff] at h ⊢
  exact h.trans ⟨l.drop n, List.take_append_drop n l⟩

/- ------------------------------------------------------------------ -/
/-! ## C1: viewport offset (draw_directory / draw_directory_and_preview)

Source (src/main.py lines 503-511 and 628-636, identical in both drawers):

    if total <= max_display: offset = 0
    else:
        if selected < max_display: offset = 0
        else: offset = selected - (max_display - 1)
        if offset > total - max_display: offset = total - max_display
-/

/-- The viewport offset computed at every redraw, exactly as in
`draw_directory` and `draw_directory_and_preview`.  `max_display` is the
number of visible rows. -/
def compute_offset (total max_display selected : Int) : Int :=
  if total ≤ max_display then 0
  else
    let o := if selected < max_display then 0 else selected - (max_display - 1)
    if o > total - max_display then total - max_display else o

/-- Claim C1: for every `total`, `visible_rows ≥ 1` and `0 ≤ selected < total`,
the viewport offset computed at redraw satisfies `offset ≥ 0` and
`offset ≤ selected < offset + min visible_rows total`. -/
theorem c1_compute_offset_bounds (total vis sel : Int)
    (hv : 1 ≤ vis) (hs0 : 0 ≤ sel) (hst : sel < total) :
    0 ≤ compute_offset total vis sel ∧
    compute_offset total vis sel ≤ sel ∧
    sel < compute_offset total vis sel + min vis total := by
  unfold compute_offset
  rcases le_total vis total with h | h <;>
    simp only [min_eq_left, min_eq_right, h] <;>
    split_ifs <;> omega

/-- Witness for C1 at `total = 10`, `visible_rows = 4`, `selected = 7`. -/
theorem c1_compute_offset_bounds_witness :
    ((1 : Int) ≤ 4 ∧ (0 : Int) ≤ 7 ∧ (7 : Int) < 10) ∧
    (0 ≤ compute_offset 10 4 7 ∧
     compute_offset 10 4 7 ≤ 7 ∧
     (7 : Int) < compute_offset 10 4 7 + min 4 10) :=
  ⟨by decide, c1_compute_offset_bounds 10 4 7 (by decide) (by decide) (by decide)⟩

/- ------------------------------------------------------------------ -/
/-! ## C4: pager key handling (show_output_curses, src/main.py lines 289-305)

    elif key == curses.KEY_DOWN or key == ord("j"):
        if offset + max_lines < len(lines): offset += 1
    elif key == curses.KEY_UP or key == ord("k"):
        if offset > 0: offset -= 1
    elif key == curses.KEY_NPAGE:
        offset = min(offset + max_lines, len(lines) - max_lines)
    elif key == curses.KEY_PPAGE:
        offset = max(offset - max_lines, 0)
    elif key == ord("g"): offset = 0
    elif key == ord("G"): offset = max(len(lines) - max_lines, 0)
-/

/-- The pager navigation keys of `show_output_curses`. -/
inductive PagerKey
  | down
  | up
  | npage
  | ppage
  | top
  | bottom
deriving DecidableEq

/-- One pager navigation step of `show_output_curses`: `numLines` is
`len(lines)`, `maxLines` is the visible region height `win_h - 4`. -/
def pagerStep (numLines maxLines offset : Int) : PagerKey → Int
  | .down => if offset + maxLines < numLines then offset + 1 else offset
  | .up => if offset > 0 then offset - 1 else offset
  | .npage => min (offset + maxLines) (numLines - maxLines)
  | .ppage => max (offset - maxLines) 0
  | .top => 0
  | .bottom => max (numLines - maxLines) 0

/-- Claim C4 is violated by the code: with 3 output lines, a visible region of
10 rows and offset 0 (the only offset in `[0, max 0 (3 - 10)]`), the page-down
key sets the offset to `min (0 + 10) (3 - 10) = -7`, which is negative.  (The
subsequent render pass then evaluates `lines[-7]` on a 3-element list, an
IndexError.)  The `G` key in the same handler clamps with `max(..., 0)`;
page-down omits that clamp. -/
theorem c4_pagedown_negative_offset :
    pagerStep 3 10 0 PagerKey.npage = -7 ∧ pagerStep 3 10 0 PagerKey.npage < 0 := by
  constructor <;> decide

/- ------------------------------------------------------------------ -/
/-! ## C6: search next / previous (main loop, src/main.py lines 860-870)

    if not search_matches: status "No matches"
    else:
        if key == ord("n"):
            current_match_idx = (current_match_idx + 1) % len(search_matches)
        else:
            current_match_idx = (current_match_idx - 1) % len(search_matches)
        selected = search_matches[current_match_idx]
-/

/-- The live search session plus the selection it drives: `ms` is
`search_matches` (EntryList indices), `cursor` is `current_match_idx`
(a Python int, so `Int`). -/
structure SearchNav where
  ms : List Nat
  cursor : Int
  selected : Nat
deriving DecidableEq, Repr

/-- One press of `n` (`isNext = true`) or `N` (`isNext = false`) with an
active search session.  Python's `%` on a positive modulus is `Int.emod`, and
`search_matches[current_match_idx]` with the cursor already reduced into
`[0, len)` is `getD cursor.toNat 0`. -/
def searchJump (isNext : Bool) (s : SearchNav) : SearchNav :=
  if s.ms.length = 0 then s
  else
    let k : Int := s.ms.length
    let c := if isNext then (s.cursor + 1) % k else (s.cursor - 1) % k
    { ms := s.ms, cursor := c, selected := s.ms.getD c.toNat 0 }

/-- Claim C6's "in particular" is violated by the code: from cursor 0 over the
two matches `[1, 2]` (entry indices of "apple" and "avocado" in the spec's
example), the sequence next, next, previous lands on cursor 1 — the second
match, entry index 2 — not back on the first match (entry index 1).  Three key
presses displace the cursor by a net `+1 ≡ 1 (mod 2)`. -/
theorem c6_next_next_prev_cex :
    (searchJump false (searchJump true (searchJump true
        ⟨[1, 2], 0, 1⟩))).cursor = 1 ∧
    (searchJump false (searchJump true (searchJump true
        ⟨[1, 2], 0, 1⟩))).selected = 2 ∧
    (searchJump false (searchJump true (searchJump true
        ⟨[1, 2], 0, 1⟩))).selected ≠ [1, 2].headD 0 := by
  refine ⟨by decide, by decide, by decide⟩

/-- Claim C6, amended: with an active session of `k ≥ 1` matches and a cursor
in `[0, k)`, `n` advances the cursor to `(cursor + 1) % k` and `N` retreats it
to `(cursor - 1) % k`, wrapping at both ends, and the selection is set to the
match at the new cursor; in particular, from cursor 0 with `k = 2` the
sequence next, next, previous lands on the second match (net displacement +1),
not the first. -/
theorem c6_cyclic_navigation (s : SearchNav) (k : Int)
    (hk : (s.ms.length : Int) = k) (h1 : 1 ≤ k)
    (hc0 : 0 ≤ s.cursor) (hck : s.cursor < k) :
    (searchJump true s).cursor = (s.cursor + 1) % k ∧
    (searchJump false s).cursor = (s.cursor - 1) % k ∧
    (s.cursor = k - 1 → (searchJump true s).cursor = 0) ∧
    (s.cursor = 0 → (searchJump false s).cursor = k - 1) ∧
    (searchJump true s).selected
      = s.ms.getD ((s.cursor + 1) % k).toNat 0 ∧
    (searchJump false s).selected
      = s.ms.getD ((s.cursor - 1) % k).toNat 0 ∧
    (k = 2 → s.cursor = 0 →
      (searchJump false (searchJump true (searchJump true s))).cursor = 1) := by
  have hne : ¬ s.ms.length = 0 := by omega
  refine ⟨?_, ?_, ?_, ?_, ?_, ?_, ?_⟩
  · simp [searchJump, hne, hk]
  · simp [searchJump, hne, hk]
  · intro h; simp [searchJump, hne, hk, h]
  · intro h
    have hc : (searchJump false s).cursor = (s.cursor - 1) % k := by
      simp [searchJump, hne, hk]
    rw [hc, h]
    have e2 : ((0 : Int) - 1 + k * 1) = k - 1 := by ring
    calc ((0 : Int) - 1) % k = (0 - 1 + k * 1) % k :=
          (Int.add_mul_emod_self_left (0 - 1) k 1).symm
      _ = (k - 1) % k := by rw [e2]
      _ = k - 1 := Int.emod_eq_of_lt (by omega) (by omega)
  · simp [searchJump, hne, hk]
  · simp [searchJump, hne, hk]
  · intro h2 h0
    have hms : (s.ms.length : Int) = 2 := by rw [hk, h2]
    simp [searchJump, hne, hms, h0]

/-- Witness for the amended C6 at the spec's concrete session
(matches `[1, 2]`, cursor 0). -/
theorem c6_cyclic_navigation_witness :
    (((([1, 2] : List Nat).length : Int) = 2 ∧ (1 : Int) ≤ 2 ∧
      (0 : Int) ≤ 0 ∧ (0 : Int) < 2) ∧
     ((searchJump true ⟨[1, 2], 0, 1⟩).cursor = (0 + 1) % 2 ∧
      (searchJump false ⟨[1, 2], 0, 1⟩).cursor = (0 - 1) % 2 ∧
      ((0 : Int) = 2 - 1 → (searchJump true ⟨[1, 2], 0, 1⟩).cursor = 0) ∧
      ((0 : Int) = 0 → (searchJump false ⟨[1, 2], 0, 1⟩).cursor = 2 - 1) ∧
      (searchJump true ⟨[1, 2], 0, 1⟩).selected
        = ([1, 2] : List Nat).getD (((0 : Int) + 1) % 2).toNat 0 ∧
      (searchJump false ⟨[1, 2], 0, 1⟩).selected
        = ([1, 2] : List Nat).getD (((0 : Int) - 1) % 2).toNat 0 ∧
      ((2 : Int) = 2 → (0 : Int) = 0 →
        (searchJump false (searchJump true (searchJump true
          ⟨[1, 2], 0, 1⟩))).cursor = 1))) :=
  ⟨⟨by decide, by decide, by decide, by decide⟩,
   c6_cyclic_navigation ⟨[1, 2], 0, 1⟩ 2 (by decide) (by decide)
     (by decide) (by decide)⟩

/- ------------------------------------------------------------------ -/
/-! ## C3 and C9: confirming a filter buffer (main loop, src/main.py 794-822)

    if cmd_buffer.startswith("/"):
        pattern = cmd_buffer[1:]
        try:
            regex = re.compile(pattern, re.IGNORECASE)
            raw = os.listdir(current_path)
            entries = [".."] + sorted(raw)
            search_matches = [idx for idx, name in enumerate(entries)
                              if name not in ("..", ".") and regex.search(name)]
            if search_matches:
                last_search = pattern
                current_match_idx = 0
                selected = search_matches[0]
            else:
                last_search = None
                _show_status(stdscr, "No matches", duration=1.0)
        except re.error:
            _show_status(stdscr, "Invalid regex", duration=1.0)
    ...
    cmd_buffer = ""
    command_mode = False

`re.compile` is modelled as an external collaborator `compileRx` returning
`none` exactly when the pattern raises `re.error`, and a compiled regex as the
predicate `Str → Bool` given by `regex.search`. -/

/-- The user-visible side effects of the handlers under verification
(status line messages, error boxes, screen flash, subprocess dispatch). -/
inductive Event
  | flash
  | cdError (candidate : Str)
  | shellRun (part : Str) (cwd : Str)
  | noMatches
  | invalidRegex
  | statusMoved (nm : Str) (dst : Str)
  | statusCopied (nm : Str) (dst : Str)
  | clipboardEmpty
  | pasteError
deriving DecidableEq, Repr

/-- Python string `<` (lexicographic on code points). -/
def lexLt : Str → Str → Bool
  | _, [] => false
  | [], _ :: _ => true
  | a :: as, b :: bs => if a < b then true else if b < a then false else lexLt as bs

/-- Python string `<=`. -/
def lexLe (a b : Str) : Bool := !(lexLt b a)

/-- Insert into a sorted list (helper for the model of Python `sorted`). -/
def insortStr (x : Str) : List Str → List Str
  | [] => [x]
  | y :: ys => if lexLe x y then x :: y :: ys else y :: insortStr x ys

/-- Model of Python `sorted` on a list of strings. -/
def pySort (l : List Str) : List Str := l.foldr insortStr []

/-- The synthetic parent entry `".."`. -/
def dotdot : Str := ['.', '.']

/-- The literal entry name `"."` (excluded from search matches). -/
def dotOne : Str := ['.']

/-- EntryList construction `[".."] + sorted(raw)`: the EntryList rebuilt from a fresh listing. -/
def buildEntries (raw : List Str) : List Str := dotdot :: pySort raw

/-- The match index sequence: indices of entries that are neither `".."` nor
`"."` and are matched by the compiled regex, in entry order. -/
def filterMatches (rx : Str → Bool) (entries : List Str) : List Nat :=
  (entries.enum.filter
    (fun p => !(p.2 == dotdot) && !(p.2 == dotOne) && rx p.2)).map Prod.fst

/-- The pieces of the main-loop state that the Enter handler in filter mode
reads or writes. -/
structure FilterSt where
  cmdBuffer : Str
  commandMode : Bool
  lastSearch : Option Str
  searchMatches : List Nat
  currentMatchIdx : Int
  selected : Nat
deriving DecidableEq, Repr

/-- The Enter handler for a command buffer starting with the filter sentinel
`"/"`: compile the pattern, relist, rebuild matches, update the session, then
(unconditionally) clear the buffer and leave command mode.  `raw` is the fresh
`os.listdir(current_path)` result. -/
def confirmFilter (compileRx : Str → Option (Str → Bool)) (raw : List Str)
    (st : FilterSt) : FilterSt × List Event :=
  let pat := st.cmdBuffer.drop 1
  match compileRx pat with
  | some rx =>
    let entries := buildEntries raw
    let ms := filterMatches rx entries
    if ms.isEmpty then
      ({ st with lastSearch := none, searchMatches := ms,
                 cmdBuffer := [], commandMode := false }, [Event.noMatches])
    else
      ({ st with lastSearch := some pat, searchMatches := ms,
                 currentMatchIdx := 0, selected := ms.headD 0,
                 cmdBuffer := [], commandMode := false }, [])
  | none =>
    ({ st with cmdBuffer := [], commandMode := false }, [Event.invalidRegex])

theorem fst_le_of_mem_enumFrom {α : Type} {l : List α} {n : Nat}
    {p : Nat × α} (h : p ∈ l.enumFrom n) : n ≤ p.1 := by
  induction l generalizing n with
  | nil => cases h
  | cons x xs ih =>
    rcases List.mem_cons.mp h with h | h
    · subst h; exact Nat.le_refl n
    · exact Nat.le_of_succ_le (ih h)

theorem pairwise_enumFrom {α : Type} (l : List α) (n : Nat) :
    (l.enumFrom n).Pairwise (fun a b => a.1 < b.1) := by
  induction l generalizing n with
  | nil => exact List.Pairwise.nil
  | cons x xs ih =>
    refine List.Pairwise.cons ?_ (ih (n + 1))
    intro p hp
    exact Nat.lt_of_succ_le (fst_le_of_mem_enumFrom hp)

/-- Claim C3: committing a filter buffer `"/"++pat` whose pattern compiles
rebuilds the match indices over the fresh EntryList (`".."` prepended, rest
sorted), keeping exactly the indices of entries other than `".."`/`"."`
that the regex matches, in increasing (entry) order; a non-empty match list
sets the session (`last_search = pat`, cursor 0) and moves the selection to
the first match, while an empty one emits the transient "No matches" status
and clears the session (`last_search = None`). -/
theorem c3_filter_commit (compileRx : Str → Option (Str → Bool))
    (raw : List Str) (st : FilterSt) (rx : Str → Bool)
    (hslash : leadsWith ['/'] st.cmdBuffer = true)
    (hrx : compileRx (st.cmdBuffer.drop 1) = some rx) :
    (∀ i, i ∈ filterMatches rx (buildEntries raw) ↔
        ∃ nm, (buildEntries raw)[i]? = some nm ∧
          nm ≠ dotdot ∧ nm ≠ dotOne ∧ rx nm = true) ∧
    (filterMatches rx (buildEntries raw)).Pairwise (· < ·) ∧
    (filterMatches rx (buildEntries raw) ≠ [] →
      (confirmFilter compileRx raw st).1.lastSearch = some (st.cmdBuffer.drop 1) ∧
      (confirmFilter compileRx raw st).1.currentMatchIdx = 0 ∧
      (confirmFilter compileRx raw st).1.searchMatches
        = filterMatches rx (buildEntries raw) ∧
      (confirmFilter compileRx raw st).1.selected
        = (filterMatches rx (buildEntries raw)).headD 0 ∧
      (confirmFilter compileRx raw st).2 = []) ∧
    (filterMatches rx (buildEntries raw) = [] →
      (confirmFilter compileRx raw st).1.lastSearch = none ∧
      (confirmFilter compileRx raw st).1.searchMatches = [] ∧
      (confirmFilter compileRx raw st).2 = [Event.noMatches]) := by
  refine ⟨?_, ?_, ?_, ?_⟩
  · intro i
    constructor
    · intro hi
      simp only [filterMatches, List.mem_map, List.mem_filter] at hi
      obtain ⟨⟨j, nm⟩, ⟨hmem, hq⟩, rfl⟩ := hi
      simp only [Bool.and_eq_true, Bool.not_eq_true', beq_eq_false_iff_ne] at hq
      exact ⟨nm, List.mk_mem_enum_iff_getElem?.mp hmem, hq.1.1, hq.1.2, hq.2⟩
    · rintro ⟨nm, hget, hne1, hne2, hrxnm⟩
      simp only [filterMatches, List.mem_map, List.mem_filter]
      refine ⟨(i, nm), ⟨List.mk_mem_enum_iff_getElem?.mpr hget, ?_⟩, rfl⟩
      simp [hne1, hne2, hrxnm]
  · have h1 : ((buildEntries raw).enum).Pairwise
        (fun a b : Nat × Str => a.1 < b.1) := pairwise_enumFrom _ 0
    have h2 := h1.filter
      (fun p => !(p.2 == dotdot) && !(p.2 == dotOne) && rx p.2)
    exact (List.pairwise_map).mpr h2
  · intro hne
    have hrx2 : compileRx st.cmdBuffer.tail = some rx := by
      rw [← List.drop_one]; exact hrx
    simp [confirmFilter, hrx2, hne]
  · intro hemp
    have hrx2 : compileRx st.cmdBuffer.tail = some rx := by
      rw [← List.drop_one]; exact hrx
    simp [confirmFilter, hrx2, hemp]

/-- The regex `"^a"` compiled with `re.IGNORECASE`: `search` succeeds exactly
on strings starting with `a` or `A` (the `^` anchor binds to the string
start; there is no MULTILINE flag). -/
def rxCaretA : Str → Bool := fun s => s.headD ' ' == 'a' || s.headD ' ' == 'A'

/-- A regex-compile collaborator for the spec's example: pattern `"^a"`
compiles to `rxCaretA`; anything else is rejected. -/
def compileRxW : Str → Option (Str → Bool) := fun p =>
  if p = ['^', 'a'] then some rxCaretA else none

/-- The directory listing of the spec's filter example. -/
def rawW : List Str := [("apple".toList), ("banana".toList), ("avocado".toList)]

/-- Command-mode state about to commit the filter `"/^a"`. -/
def stW : FilterSt :=
  { cmdBuffer := ("/^a".toList), commandMode := true, lastSearch := none,
    searchMatches := [], currentMatchIdx := -1, selected := 0 }

/-- Witness for C3 at the spec's example: filter `"/^a"` over entries
`["..", "apple", "banana", "avocado"]`. -/
theorem c3_filter_commit_witness :
    (leadsWith ['/'] stW.cmdBuffer = true ∧
     compileRxW (stW.cmdBuffer.drop 1) = some rxCaretA) ∧
    ((∀ i, i ∈ filterMatches rxCaretA (buildEntries rawW) ↔
        ∃ nm, (buildEntries rawW)[i]? = some nm ∧
          nm ≠ dotdot ∧ nm ≠ dotOne ∧ rxCaretA nm = true) ∧
     (filterMatches rxCaretA (buildEntries rawW)).Pairwise (· < ·) ∧
     (filterMatches rxCaretA (buildEntries rawW) ≠ [] →
       (confirmFilter compileRxW rawW stW).1.lastSearch
         = some (stW.cmdBuffer.drop 1) ∧
       (confirmFilter compileRxW rawW stW).1.currentMatchIdx = 0 ∧
       (confirmFilter compileRxW rawW stW).1.searchMatches
         = filterMatches rxCaretA (buildEntries rawW) ∧
       (confirmFilter compileRxW rawW stW).1.selected
         = (filterMatches rxCaretA (buildEntries rawW)).headD 0 ∧
       (confirmFilter compileRxW rawW stW).2 = []) ∧
     (filterMatches rxCaretA (buildEntries rawW) = [] →
       (confirmFilter compileRxW rawW stW).1.lastSearch = none ∧
       (confirmFilter compileRxW rawW stW).1.searchMatches = [] ∧
       (confirmFilter compileRxW rawW stW).2 = [Event.noMatches])) :=
  ⟨⟨by decide, rfl⟩,
   c3_filter_commit compileRxW rawW stW rxCaretA (by decide) rfl⟩

/-- The spec example evaluated: the matches of `"/^a"` over
`["..", "apple", "banana", "avocado"]` are entry indices 1 and 2, whose names
in the sorted EntryList are "apple" then "avocado" (input order preserved,
".." excluded). -/
theorem filter_example_order :
    filterMatches rxCaretA (buildEntries rawW) = [1, 2] ∧
    (filterMatches rxCaretA (buildEntries rawW)).map
        (fun i => (buildEntries rawW).getD i []) =
      [("apple".toList), ("avocado".toList)] := by
  constructor <;> decide

/-- Claim C9 is violated by the code: committing the filter `"/["` whose
pattern fails to compile shows the transient "Invalid regex" status and does
not terminate, but the command-entry state is NOT retained — the buffer is
cleared and command mode exited by the unconditional epilogue of the Enter
handler. -/
theorem c9_invalid_regex_cex :
    (confirmFilter (fun _ => none) []
        { cmdBuffer := ("/[".toList), commandMode := true, lastSearch := none,
          searchMatches := [], currentMatchIdx := -1, selected := 0 }).1.cmdBuffer
      = [] ∧
    (confirmFilter (fun _ => none) []
        { cmdBuffer := ("/[".toList), commandMode := true, lastSearch := none,
          searchMatches := [], currentMatchIdx := -1, selected := 0 }).1.cmdBuffer
      ≠ ("/[".toList) ∧
    (confirmFilter (fun _ => none) []
        { cmdBuffer := ("/[".toList), commandMode := true, lastSearch := none,
          searchMatches := [], currentMatchIdx := -1, selected := 0 }).1.commandMode
      = false ∧
    (confirmFilter (fun _ => none) []
        { cmdBuffer := ("/[".toList), commandMode := true, lastSearch := none,
          searchMatches := [], currentMatchIdx := -1, selected := 0 }).2
      = [Event.invalidRegex] := by
  refine ⟨by decide, by decide, by decide, by decide⟩

/-- Claim C9, amended: when the committed filter pattern fails to compile, the
error is reported only as a transient status message and the handler returns
normally (the process does not terminate), leaving the search session exactly
as it was — but command mode is exited and the buffer is cleared (the same
epilogue as a successful commit), not retained for further editing. -/
theorem c9_invalid_regex_transient (compileRx : Str → Option (Str → Bool))
    (raw : List Str) (st : FilterSt)
    (hfail : compileRx (st.cmdBuffer.drop 1) = none) :
    confirmFilter compileRx raw st
      = ({ st with cmdBuffer := [], commandMode := false },
         [Event.invalidRegex]) := by
  have hfail2 : compileRx st.cmdBuffer.tail = none := by
    rw [← List.drop_one]; exact hfail
  simp [confirmFilter, hfail2]

/-- Witness for the amended C9 at the concrete buffer `"/["`. -/
theorem c9_invalid_regex_transient_witness :
    ((fun _ => none : Str → Option (Str → Bool))
        (("/[".toList : Str).drop 1) = none) ∧
    confirmFilter (fun _ => none) ([("x".toList)])
        { cmdBuffer := ("/[".toList), commandMode := true, lastSearch := none,
          searchMatches := [], currentMatchIdx := -1, selected := 0 }
      = ({ cmdBuffer := [], commandMode := false, lastSearch := none,
           searchMatches := [], currentMatchIdx := -1, selected := 0 },
         [Event.invalidRegex]) :=
  ⟨rfl, c9_invalid_regex_transient (fun _ => none) ([("x".toList)])
    { cmdBuffer := ("/[".toList), commandMode := true, lastSearch := none,
      searchMatches := [], currentMatchIdx := -1, selected := 0 } rfl⟩

/- ------------------------------------------------------------------ -/
/-! ## Order lemmas for `lexLt` and the `os.path.commonprefix` algorithm

`os.path.commonprefix(m)` computes `s1 = min(m)`, `s2 = max(m)` under the
lexicographic string order and scans `s1` against `s2` up to the first
difference.  We prove this equals the longest common prefix of all of `m`. -/

theorem lexLt_nil_false (c : Str) : lexLt c [] = false := by
  cases c <;> rfl

theorem lexLt_irrefl (a : Str) : lexLt a a = false := by
  induction a with
  | nil => rfl
  | cons c cs ih => simp [lexLt, ih]

theorem lexLt_asymm {a b : Str} (h : lexLt a b = true) : lexLt b a = false := by
  induction a generalizing b with
  | nil =>
    cases b with
    | nil => simp [lexLt] at h
    | cons y ys => exact lexLt_nil_false (y :: ys)
  | cons x xs ih =>
    cases b with
    | nil => simp [lexLt] at h
    | cons y ys =>
      simp only [lexLt] at h ⊢
      rcases lt_trichotomy x y with hlt | heq | hgt
      · rw [if_neg (asymm hlt), if_pos hlt]
      · subst heq
        rw [if_neg (lt_irrefl x), if_neg (lt_irrefl x)] at h ⊢
        exact ih h
      · rw [if_neg (asymm hgt), if_pos hgt] at h
        exact absurd h (by simp)

/-- Transitivity of the lexicographic `≤` (stated as negations of `<`). -/
theorem lexLt_neg_trans {a b c : Str} (hba : lexLt b a = false)
    (hcb : lexLt c b = false) : lexLt c a = false := by
  induction a generalizing b c with
  | nil => exact lexLt_nil_false c
  | cons x xs ih =>
    cases b with
    | nil => simp [lexLt] at hba
    | cons y ys =>
      cases c with
      | nil => simp [lexLt] at hcb
      | cons z zs =>
        simp only [lexLt] at hba hcb ⊢
        by_cases hyx : y < x
        · rw [if_pos hyx] at hba; exact absurd hba (by simp)
        · by_cases hzy : z < y
          · rw [if_pos hzy] at hcb; exact absurd hcb (by simp)
          · have hxy : x ≤ y := not_lt.mp hyx
            have hyz : y ≤ z := not_lt.mp hzy
            have hzx : ¬ z < x := not_lt.mpr (hxy.trans hyz)
            rw [if_neg hzx]
            by_cases hxz : x < z
            · rw [if_pos hxz]
            · rw [if_neg hxz]
              have hzlex : z ≤ x := not_lt.mp hxz
              have exy : x = y := le_antisymm hxy (hyz.trans hzlex)
              have eyz : y = z := le_antisymm hyz (hzlex.trans hxy)
              rw [if_neg hyx, if_neg (exy ▸ hyx)] at hba
              rw [if_neg hzy, if_neg (eyz ▸ hzy)] at hcb
              exact ih hba hcb

/-- Python `min` over a nonempty list (first element `x`, rest `l`). -/
def pyMin (x : Str) (l : List Str) : Str :=
  l.foldl (fun a y => if lexLt y a then y else a) x

/-- Python `max` over a nonempty list (first element `x`, rest `l`). -/
def pyMax (x : Str) (l : List Str) : Str :=
  l.foldl (fun a y => if lexLt a y then y else a) x

theorem pyMin_mem (x : Str) (l : List Str) : pyMin x l ∈ x :: l := by
  induction l generalizing x with
  | nil => simp [pyMin]
  | cons y ys ih =>
    show pyMin (if lexLt y x then y else x) ys ∈ x :: y :: ys
    by_cases h : lexLt y x
    · rw [if_pos h]
      rcases List.mem_cons.mp (ih y) with h2 | h2
      · rw [h2]; exact List.mem_cons_of_mem x (List.mem_cons_self y ys)
      · exact List.mem_cons_of_mem x (List.mem_cons_of_mem y h2)
    · rw [if_neg h]
      rcases List.mem_cons.mp (ih x) with h2 | h2
      · rw [h2]; exact List.mem_cons_self x (y :: ys)
      · exact List.mem_cons_of_mem x (List.mem_cons_of_mem y h2)

theorem pyMax_mem (x : Str) (l : List Str) : pyMax x l ∈ x :: l := by
  induction l generalizing x with
  | nil => simp [pyMax]
  | cons y ys ih =>
    show pyMax (if lexLt x y then y else x) ys ∈ x :: y :: ys
    by_cases h : lexLt x y
    · rw [if_pos h]
      rcases List.mem_cons.mp (ih y) with h2 | h2
      · rw [h2]; exact List.mem_cons_of_mem x (List.mem_cons_self y ys)
      · exact List.mem_cons_of_mem x (List.mem_cons_of_mem y h2)
    · rw [if_neg h]
      rcases List.mem_cons.mp (ih x) with h2 | h2
      · rw [h2]; exact List.mem_cons_self x (y :: ys)
      · exact List.mem_cons_of_mem x (List.mem_cons_of_mem y h2)

theorem pyMin_le (x : Str) (l : List Str) :
    ∀ y ∈ x :: l, lexLt y (pyMin x l) = false := by
  induction l generalizing x with
  | nil =>
    intro y hy
    rcases List.mem_cons.mp hy with rfl | h
    · exact lexLt_irrefl y
    · cases h
  | cons z zs ih =>
    intro y hy
    have step : pyMin x (z :: zs) = pyMin (if lexLt z x then z else x) zs := rfl
    by_cases h : lexLt z x
    · rw [step, if_pos h]
      rcases List.mem_cons.mp hy with h0 | h2
      · subst h0
        exact lexLt_neg_trans (ih z z (List.mem_cons_self z zs)) (lexLt_asymm h)
      · exact ih z y h2
    · have hf : lexLt z x = false := by simpa using h
      rw [step, if_neg h]
      rcases List.mem_cons.mp hy with h0 | h2
      · subst h0; exact ih y y (List.mem_cons_self y zs)
      · rcases List.mem_cons.mp h2 with h0 | h3
        · subst h0
          exact lexLt_neg_trans (ih x x (List.mem_cons_self x zs)) hf
        · exact ih x y (List.mem_cons_of_mem x h3)

theorem pyMax_ge (x : Str) (l : List Str) :
    ∀ y ∈ x :: l, lexLt (pyMax x l) y = false := by
  induction l generalizing x with
  | nil =>
    intro y hy
    rcases List.mem_cons.mp hy with rfl | h
    · exact lexLt_irrefl y
    · cases h
  | cons z zs ih =>
    intro y hy
    have step : pyMax x (z :: zs) = pyMax (if lexLt x z then z else x) zs := rfl
    by_cases h : lexLt x z
    · rw [step, if_pos h]
      rcases List.mem_cons.mp hy with h0 | h2
      · subst h0
        exact lexLt_neg_trans (lexLt_asymm h) (ih z z (List.mem_cons_self z zs))
      · exact ih z y h2
    · have hf : lexLt x z = false := by simpa using h
      rw [step, if_neg h]
      rcases List.mem_cons.mp hy with h0 | h2
      · subst h0; exact ih y y (List.mem_cons_self y zs)
      · rcases List.mem_cons.mp h2 with h0 | h3
        · subst h0
          exact lexLt_neg_trans hf (ih x x (List.mem_cons_self x zs))
        · exact ih x y (List.mem_cons_of_mem x h3)

/-- The scan loop of `os.path.commonprefix`: longest common prefix of two
strings.  (Python indexes `s2[i]` while scanning `s1`; with `s1 = min`,
`s2 = max` the index never overruns, and this recursion agrees with it.) -/
def scanLcp : Str → Str → Str
  | a :: as, b :: bs => if a = b then a :: scanLcp as bs else []
  | _, _ => []

theorem scanLcp_nil_left (b : Str) : scanLcp [] b = [] := by
  cases b <;> rfl

theorem scanLcp_pfx_left (a b : Str) : scanLcp a b <+: a := by
  induction a generalizing b with
  | nil => rw [scanLcp_nil_left]
  | cons x xs ih =>
    cases b with
    | nil => exact List.nil_prefix
    | cons y ys =>
      show (if x = y then x :: scanLcp xs ys else []) <+: x :: xs
      by_cases h : x = y
      · rw [if_pos h]
        obtain ⟨t, ht⟩ := ih ys
        exact ⟨t, by rw [List.cons_append, ht]⟩
      · rw [if_neg h]; exact List.nil_prefix

theorem pfx_scanLcp {q a b : Str} (ha : q <+: a) (hb : q <+: b) :
    q <+: scanLcp a b := by
  induction q generalizing a b with
  | nil => exact List.nil_prefix
  | cons c q' ih =>
    obtain ⟨t, rfl⟩ := ha
    obtain ⟨u, hu⟩ := hb
    rw [List.cons_append] at hu
    subst hu
    show c :: q' <+: (if c = c then c :: scanLcp (q' ++ t) (q' ++ u) else [])
    rw [if_pos rfl]
    obtain ⟨v, hv⟩ := ih ⟨t, rfl⟩ ⟨u, rfl⟩
    exact ⟨v, by rw [List.cons_append, hv]⟩

theorem scanLcp_sandwich {mn mx y : Str} (h1 : lexLt y mn = false)
    (h2 : lexLt mx y = false) : scanLcp mn mx <+: y := by
  induction mn generalizing mx y with
  | nil => rw [scanLcp_nil_left]; exact List.nil_prefix
  | cons a as ih =>
    cases mx with
    | nil => exact List.nil_prefix
    | cons b bs =>
      show (if a = b then a :: scanLcp as bs else []) <+: y
      by_cases hab : a = b
      · subst hab
        rw [if_pos rfl]
        cases y with
        | nil => simp [lexLt] at h1
        | cons c ys =>
          simp only [lexLt] at h1 h2
          by_cases hca : c < a
          · rw [if_pos hca] at h1; exact absurd h1 (by simp)
          · by_cases hac : a < c
            · rw [if_neg (asymm hac), if_pos hac] at h2
              exact absurd h2 (by simp)
            · have hacn : a = c := le_antisymm (not_lt.mp hca) (not_lt.mp hac)
              rw [if_neg hca, if_neg hac] at h1
              rw [if_neg hac, if_neg hca] at h2
              obtain ⟨t, ht⟩ := ih h1 h2
              exact hacn ▸ ⟨t, by rw [List.cons_append, ht]⟩
      · rw [if_neg hab]; exact List.nil_prefix

/-- Model of `os.path.commonprefix` (the `min`/`max` + scan algorithm). -/
def commonpfx (m : List Str) : Str :=
  match m with
  | [] => []
  | x :: xs => scanLcp (pyMin x xs) (pyMax x xs)

/-- The result of `commonpfx` is a common prefix of every element. -/
theorem commonpfx_pfx_all {x : Str} {xs : List Str} :
    ∀ y ∈ x :: xs, commonpfx (x :: xs) <+: y := by
  intro y hy
  exact scanLcp_sandwich (pyMin_le x xs y hy) (pyMax_ge x xs y hy)

/-- Every common prefix of all elements is a prefix of `commonpfx`: together
with `commonpfx_pfx_all` this says `commonpfx` is the longest common
prefix. -/
theorem commonpfx_longest {x : Str} {xs : List Str} {q : Str}
    (hq : ∀ y ∈ x :: xs, q <+: y) : q <+: commonpfx (x :: xs) :=
  pfx_scanLcp (hq _ (pyMin_mem x xs)) (hq _ (pyMax_mem x xs))

/-- A prefix, re-glued onto the remainder after it, gives back the string. -/
theorem pfx_append_drop {p l : Str} (h : p <+: l) :
    p ++ l.drop p.length = l := by
  obtain ⟨t, rfl⟩ := h
  simp

/- ------------------------------------------------------------------ -/
/-! ## Path helpers (posixpath), modelled for the autocompletion and
command engines -/

/-- Python `p.rfind(c)`: highest index of `c` in `p`, or `-1`. -/
def lastIdxAux (c : Char) : Str → Option Nat
  | [] => none
  | x :: xs =>
    match lastIdxAux c xs with
    | some k => some (k + 1)
    | none => if x = c then some 0 else none

/-- Python `p.rfind(c)` as an integer (`-1` when absent). -/
def lastIdxInt (c : Char) (p : Str) : Int :=
  match lastIdxAux c p with
  | some k => (k : Int)
  | none => -1

/-- Python `p.rstrip(c)` for a single strip character. -/
def rstripChar (c : Char) (p : Str) : Str :=
  (p.reverse.dropWhile (· = c)).reverse

/-- Model of `posixpath.split`: split at the last `/`; the head keeps its trailing
slashes only when it consists solely of slashes. -/
def pySplitPath (p : Str) : Str × Str :=
  let i := (lastIdxInt '/' p) + 1
  let head := p.take i.toNat
  let tl := p.drop i.toNat
  let head2 :=
    if head.isEmpty || head.all (fun c => c == '/') then head
    else rstripChar '/' head
  (head2, tl)

/-- Model of `posixpath.isabs`. -/
def isabs (p : Str) : Bool := leadsWith ['/'] p

/-- Model of `posixpath.join` for two components. -/
def joinPath (a b : Str) : Str :=
  if isabs b then b
  else if a.isEmpty || (a.getLast? == some '/') then a ++ b
  else a ++ '/' :: b

/-- Python `s.split(c)` (single-character separator, keeping empties). -/
def splitOnChar (sep : Char) : Str → List Str
  | [] => [[]]
  | c :: cs =>
    match splitOnChar sep cs with
    | h :: t => if c = sep then [] :: h :: t else (c :: h) :: t
    | [] => [[c]]

/-- Python `c.join(l)` (single-character separator). -/
def joinWithChar (sep : Char) : List Str → Str
  | [] => []
  | [x] => x
  | x :: xs => x ++ sep :: joinWithChar sep xs

/-- Model of `posixpath.normpath`. -/
def normpath (p : Str) : Str :=
  if p.isEmpty then dotOne
  else
    let slashes : Nat :=
      if leadsWith ['/'] p then
        if leadsWith ['/', '/'] p && !(leadsWith ['/', '/', '/'] p) then 2
        else 1
      else 0
    let comps := splitOnChar '/' p
    let newComps := comps.foldl (fun acc comp =>
      if comp.isEmpty || comp == dotOne then acc
      else if !(comp == dotdot) || (slashes == 0 && acc.isEmpty)
              || (acc.getLast? == some dotdot) then acc ++ [comp]
      else if !acc.isEmpty then acc.dropLast
      else acc) []
    let res := List.replicate slashes '/' ++ joinWithChar '/' newComps
    if res.isEmpty then dotOne else res

/- ------------------------------------------------------------------ -/
/-! ## C2: autocompletion (find_autocomplete_suggestion, src/main.py 438-467)

    assert buffer.startswith("cd ")
    raw = buffer[3:]
    basedir, partial = os.path.split(raw)
    search_dir = basedir if absolute else normpath(join(current_path, basedir))
    try: entries = os.listdir(search_dir)
    except Exception: return raw, "", False
    candidates = [e for e in entries if e.startswith(partial)]
    if not candidates: return raw, "", False
    if len(candidates) == 1:
        rest = single[len(partial):]  (+ "/" if isdir)
        return raw, rest, isdir
    common = os.path.commonprefix(candidates)
    return raw, common[len(partial):], False
-/

/-- The filesystem collaborators of the autocompletion engine: `listdir`
returns `none` when the listing raises, and `isDir` is `os.path.isdir`. -/
structure AcEnv where
  listdir : Str → Option (List Str)
  isDir : Str → Bool

/-- The literal command prefix `"cd "`. -/
def cdSpStr : Str := ['c', 'd', ' ']

/-- The directory whose entries are completion candidates: the fragment's
directory part, resolved against the current path when relative. -/
def acSearchDir (cur raw : Str) : Str :=
  if isabs (pySplitPath raw).1 then (pySplitPath raw).1
  else normpath (joinPath cur (pySplitPath raw).1)

/-- The function `find_autocomplete_suggestion`: returns
`(fragment, suggested suffix, is_directory)`. -/
def find_autocomplete_suggestion (env : AcEnv) (buf cur : Str) :
    Str × Str × Bool :=
  let raw := buf.drop 3
  let pn := (pySplitPath raw).2
  let search_dir := acSearchDir cur raw
  match env.listdir search_dir with
  | none => (raw, [], false)
  | some entries =>
    match entries.filter (fun e => leadsWith pn e) with
    | [] => (raw, [], false)
    | [single] =>
      let rest := single.drop pn.length
      let fullpath := joinPath search_dir single
      (raw, (if env.isDir fullpath then rest ++ ['/'] else rest),
       env.isDir fullpath)
    | _ :: _ :: _ =>
      let common := commonpfx (entries.filter (fun e => leadsWith pn e))
      (raw, common.drop pn.length, false)

/-- Claim C2: for a buffer `"cd " ++ fragment`, the suggestion is: with
exactly one candidate `c` (a listing entry with the partial name as a literal
prefix), the remainder of `c` after the partial name, with `"/"` appended iff
`c` resolves to a directory (and the flag set accordingly); with two or more
candidates, the remainder after the partial name of the longest common prefix
of all candidates (`commonpfx` is proved here to be exactly that longest
common prefix), with nothing appended and the flag false; with zero
candidates (or an unreadable directory), the empty suffix. -/
theorem c2_autocomplete_spec (env : AcEnv) (buf cur : Str)
    (hb : leadsWith cdSpStr buf = true) :
    (find_autocomplete_suggestion env buf cur).1 = buf.drop 3 ∧
    (match env.listdir (acSearchDir cur (buf.drop 3)) with
     | none => (find_autocomplete_suggestion env buf cur).2.1 = [] ∧
               (find_autocomplete_suggestion env buf cur).2.2 = false
     | some entries =>
       match entries.filter
           (fun e => leadsWith (pySplitPath (buf.drop 3)).2 e) with
       | [] => (find_autocomplete_suggestion env buf cur).2.1 = [] ∧
               (find_autocomplete_suggestion env buf cur).2.2 = false
       | [c] =>
           (pySplitPath (buf.drop 3)).2
               ++ c.drop (pySplitPath (buf.drop 3)).2.length = c ∧
           (find_autocomplete_suggestion env buf cur).2.1
             = c.drop (pySplitPath (buf.drop 3)).2.length
               ++ (if env.isDir (joinPath (acSearchDir cur (buf.drop 3)) c)
                   then ['/'] else []) ∧
           (find_autocomplete_suggestion env buf cur).2.2
             = env.isDir (joinPath (acSearchDir cur (buf.drop 3)) c)
       | a :: b :: rest =>
           (∀ y ∈ a :: b :: rest, commonpfx (a :: b :: rest) <+: y) ∧
           (∀ q, (∀ y ∈ a :: b :: rest, q <+: y) →
               q <+: commonpfx (a :: b :: rest)) ∧
           (pySplitPath (buf.drop 3)).2
               ++ (find_autocomplete_suggestion env buf cur).2.1
             = commonpfx (a :: b :: rest) ∧
           (find_autocomplete_suggestion env buf cur).2.2 = false) := by
  cases hld : env.listdir (acSearchDir cur (buf.drop 3)) with
  | none =>
    refine ⟨?_, ?_, ?_⟩ <;> simp [find_autocomplete_suggestion, hld]
  | some entries =>
    cases hc : entries.filter
        (fun e => leadsWith (pySplitPath (buf.drop 3)).2 e) with
    | nil =>
      dsimp only
      rw [hc]
      refine ⟨?_, ?_, ?_⟩ <;> simp [find_autocomplete_suggestion, hld, hc]
    | cons a tl =>
      cases tl with
      | nil =>
        have ha : a ∈ entries.filter
            (fun e => leadsWith (pySplitPath (buf.drop 3)).2 e) := by
          rw [hc]; exact List.mem_singleton_self a
        have hpfx : (pySplitPath (buf.drop 3)).2 <+: a :=
          (leadsWith_iff _ _).mp (List.of_mem_filter ha)
        dsimp only
        rw [hc]
        refine ⟨?_, ?_, ?_, ?_⟩
        · simp [find_autocomplete_suggestion, hld, hc]
        · exact pfx_append_drop hpfx
        · simp only [find_autocomplete_suggestion, hld, hc]
          cases env.isDir (joinPath (acSearchDir cur (buf.drop 3)) a) <;> simp
        · simp [find_autocomplete_suggestion, hld, hc]
      | cons b rest =>
        dsimp only
        rw [hc]
        refine ⟨?_, ?_, ?_, ?_, ?_⟩
        · simp [find_autocomplete_suggestion, hld, hc]
        · exact fun y hy => commonpfx_pfx_all y hy
        · exact fun q hq => commonpfx_longest hq
        · have hr : (find_autocomplete_suggestion env buf cur).2.1
              = (commonpfx (a :: b :: rest)).drop
                  (pySplitPath (buf.drop 3)).2.length := by
            simp [find_autocomplete_suggestion, hld, hc]
          rw [hr]
          refine pfx_append_drop (commonpfx_longest (fun y hy => ?_))
          have hy2 : y ∈ entries.filter
              (fun e => leadsWith (pySplitPath (buf.drop 3)).2 e) := by
            rw [hc]; exact hy
          exact (leadsWith_iff _ _).mp (List.of_mem_filter hy2)
        · simp [find_autocomplete_suggestion, hld, hc]

/-- Autocompletion collaborator for the spec's example: listing `/home`
yields `["alpha", "alphabet"]`; nothing is a directory. -/
def acEnvW : AcEnv :=
  { listdir := fun d =>
      if d = ("/home".toList) then
        some [("alpha".toList), ("alphabet".toList)]
      else none,
    isDir := fun _ => false }

/-- Witness for C2 at the spec's example: buffer `"cd alph"` with candidates
`["alpha", "alphabet"]` (the two-or-more-candidates branch). -/
theorem c2_autocomplete_spec_witness :
    leadsWith cdSpStr ("cd alph".toList) = true ∧
    ((find_autocomplete_suggestion acEnvW ("cd alph".toList)
        ("/home".toList)).1 = (("cd alph".toList : Str).drop 3) ∧
     ((∀ y ∈ [("alpha".toList), ("alphabet".toList)],
         commonpfx [("alpha".toList), ("alphabet".toList)] <+: y) ∧
      (∀ q, (∀ y ∈ [("alpha".toList), ("alphabet".toList)], q <+: y) →
         q <+: commonpfx [("alpha".toList), ("alphabet".toList)]) ∧
      (pySplitPath (("cd alph".toList : Str).drop 3)).2
          ++ (find_autocomplete_suggestion acEnvW ("cd alph".toList)
                ("/home".toList)).2.1
        = commonpfx [("alpha".toList), ("alphabet".toList)] ∧
      (find_autocomplete_suggestion acEnvW ("cd alph".toList)
          ("/home".toList)).2.2 = false)) :=
  ⟨by decide,
   c2_autocomplete_spec acEnvW ("cd alph".toList) ("/home".toList) (by decide)⟩

/-- Autocompletion collaborator with the single candidate `alpha`, which is a
directory. -/
def acEnvW2 : AcEnv :=
  { listdir := fun d =>
      if d = ("/home".toList) then some [("alpha".toList)] else none,
    isDir := fun d => d = ("/home/alpha".toList) }

/-- The spec's completion examples evaluated: partial `"alph"` with
candidates `["alpha", "alphabet"]` suggests `"a"` (not directory-marked);
with the single directory candidate `["alpha"]` it suggests `"a/"` with the
directory flag set. -/
theorem autocomplete_examples :
    (find_autocomplete_suggestion acEnvW ("cd alph".toList)
        ("/home".toList)).2.1 = ['a'] ∧
    (find_autocomplete_suggestion acEnvW ("cd alph".toList)
        ("/home".toList)).2.2 = false ∧
    (find_autocomplete_suggestion acEnvW2 ("cd alph".toList)
        ("/home".toList)).2.1 = ['a', '/'] ∧
    (find_autocomplete_suggestion acEnvW2 ("cd alph".toList)
        ("/home".toList)).2.2 = true := by
  refine ⟨by decide, by decide, by decide, by decide⟩

/- ------------------------------------------------------------------ -/
/-! ## C5: hunk marker splitting (show_output_curses, src/main.py 249-266)

    hunk = re.search(r"\s*@@.*?@@", raw)
    if hunk:
        start, end = hunk.span()
        pre = raw[:start]
        mid = raw[start:end]
        post = raw[end : win_w - 4]

The regex engine scans start positions left to right; at a position `s` the
greedy `\s*` can only land at the end of the whitespace run (whitespace is
never `@`), then `@@` must follow, and the lazy `.*?` stops at the first
subsequent `@@`.  `hunkSearch` implements exactly that scan. -/

/-- Python `\s` on ASCII: space, tab, newline, carriage return, vertical tab,
form feed. -/
def isPyWS (c : Char) : Bool :=
  c == ' ' || c == '\t' || c == '\n' || c == '\r' ||
  c == Char.ofNat 11 || c == Char.ofNat 12

/-- The two-character marker `"@@"`. -/
def atAtS : Str := ['@', '@']

/-- Index of the first occurrence of `"@@"` (the lazy `.*?` stop point). -/
def findAtAt : Str → Option Nat
  | [] => none
  | c :: rest =>
    if leadsWith atAtS (c :: rest) then some 0
    else (findAtAt rest).map (· + 1)

/-- Whether `"@@"` occurs anywhere in the string. -/
def containsAtAt : Str → Bool
  | [] => false
  | c :: rest => leadsWith atAtS (c :: rest) || containsAtAt rest

/-- Length of the leading whitespace run (what greedy `\s*` consumes). -/
def wsLen (t : Str) : Nat := (t.takeWhile isPyWS).length

/-- Attempt a `\s*@@.*?@@` match anchored at index `s` of `l`; returns the
end index of the (leftmost-at-`s`, shortest) match. -/
def matchAt (l : Str) (s : Nat) : Option Nat :=
  let t := l.drop s
  let w := wsLen t
  if leadsWith atAtS (t.drop w) then
    match findAtAt ((t.drop w).drop 2) with
    | some k => some (s + w + 2 + k + 2)
    | none => none
  else none

/-- Scan start positions `s0, s0+1, ...` (`fuel` bounds the scan). -/
def hunkSearchAux (l : Str) : Nat → Nat → Option (Nat × Nat)
  | 0, _ => none
  | fuel + 1, s =>
    match matchAt l s with
    | some e => some (s, e)
    | none => hunkSearchAux l fuel (s + 1)

/-- Model of `re.search(r"\s*@@.*?@@", l).span()`: scan positions `0 .. l.length`. -/
def hunkSearch (l : Str) : Option (Nat × Nat) :=
  hunkSearchAux l (l.length + 1) 0

/-- The three spans the pager paints: `raw[:start]`, `raw[start:end]`,
`raw[end : win_w - 4]` (`w4` is `win_w - 4`). -/
def splitHunk (w4 : Nat) (l : Str) : Option (Str × Str × Str) :=
  match hunkSearch l with
  | some (s, e) => some (l.take s, (l.drop s).take (e - s), (l.take w4).drop e)
  | none => none

theorem findAtAt_some {l : Str} {k : Nat} (h : findAtAt l = some k) :
    leadsWith atAtS (l.drop k) = true ∧
    (∀ j, j < k → leadsWith atAtS (l.drop j) = false) ∧
    k + 2 ≤ l.length := by
  induction l generalizing k with
  | nil => simp [findAtAt] at h
  | cons c rest ih =>
    by_cases hp : leadsWith atAtS (c :: rest) = true
    · rw [findAtAt, if_pos hp] at h
      injection h with h2
      subst h2
      exact ⟨hp, fun j hj => absurd hj (Nat.not_lt_zero j),
        leadsWith_length hp⟩
    · rw [findAtAt, if_neg hp] at h
      cases hf : findAtAt rest with
      | none => rw [hf] at h; simp at h
      | some k0 =>
        rw [hf] at h
        simp only [Option.map_some'] at h
        injection h with h2
        subst h2
        obtain ⟨h1, h2, h3⟩ := ih hf
        refine ⟨by simpa using h1, ?_, by simp; omega⟩
        intro j hj
        cases j with
        | zero => simpa using hp
        | succ j0 => simpa using h2 j0 (by omega)

theorem containsAtAt_iff (l : Str) :
    containsAtAt l = true ↔ ∃ j, leadsWith atAtS (l.drop j) = true := by
  induction l with
  | nil =>
    simp only [containsAtAt, Bool.false_eq_true, false_iff]
    rintro ⟨j, hj⟩
    simp [leadsWith, atAtS] at hj
  | cons c rest ih =>
    simp only [containsAtAt, Bool.or_eq_true, ih]
    constructor
    · rintro (h | ⟨j, hj⟩)
      · exact ⟨0, by simpa using h⟩
      · exact ⟨j + 1, by simpa using hj⟩
    · rintro ⟨j, hj⟩
      cases j with
      | zero => exact Or.inl (by simpa using hj)
      | succ j0 => exact Or.inr ⟨j0, by simpa using hj⟩

/-- Up to the first `"@@"`, there is no `"@@"`: the lazy match does not
extend over trailing text. -/
theorem take_first_no_atAt {u : Str} {k : Nat} (hf : findAtAt u = some k) :
    containsAtAt (u.take k) = false := by
  cases hcc : containsAtAt (u.take k) with
  | false => rfl
  | true =>
    exfalso
    obtain ⟨j, hj⟩ := (containsAtAt_iff _).mp hcc
    have hlen : 2 ≤ ((u.take k).drop j).length := leadsWith_length hj
    have hmin : ((u.take k).drop j).length = min k u.length - j := by
      simp [List.length_drop, List.length_take]
    have hjk : j < k := by omega
    have hdt : (u.take k).drop j = (u.drop j).take (k - j) := by
      rw [List.drop_take]
    have hfull : leadsWith atAtS (u.drop j) = true := by
      refine leadsWith_of_take (l := u.drop j) (n := k - j) ?_
      rw [← hdt]; exact hj
    have hnone := (findAtAt_some hf).2.1 j hjk
    rw [hfull] at hnone
    cases hnone

theorem hunkSearchAux_sound (l : Str) :
    ∀ fuel s0 s e, hunkSearchAux l fuel s0 = some (s, e) →
      matchAt l s = some e := by
  intro fuel
  induction fuel with
  | zero => intro s0 s e h; simp [hunkSearchAux] at h
  | succ f ih =>
    intro s0 s e h
    rw [hunkSearchAux] at h
    cases hm : matchAt l s0 with
    | some e0 =>
      rw [hm] at h
      injection h with h2
      rw [Prod.mk.injEq] at h2
      obtain ⟨rfl, rfl⟩ := h2
      exact hm
    | none =>
      rw [hm] at h
      exact ih (s0 + 1) s e h

theorem take_wsLen (t : Str) : t.take (wsLen t) = t.takeWhile isPyWS := by
  unfold wsLen
  induction t with
  | nil => rfl
  | cons c cs ih =>
    by_cases h : isPyWS c = true
    · simp only [List.takeWhile_cons, if_pos h, List.length_cons,
        List.take_succ_cons]
      exact congrArg (c :: ·) ih
    · simp only [List.takeWhile_cons, if_neg h, List.length_nil,
        List.take_zero]

/-- Claim C5: whenever the pager finds a hunk marker, the line splits into
exactly three spans reassembling to the line (given the window is wide
enough, `l.length ≤ w4`); the marker span is leading whitespace, `"@@"`, an
inner text containing no `"@@"`, and the closing `"@@"` — so the non-greedy
match stops at the first closing marker and never extends over trailing
context text.  In particular the line `"@@ -1,2 +1,3 @@ context"` splits with
empty pre-text, marker `"@@ -1,2 +1,3 @@"` and post-text `" context"`. -/
theorem c5_hunk_split :
    (∀ w4 l pre mid post, l.length ≤ w4 →
      splitHunk w4 l = some (pre, mid, post) →
      l = pre ++ mid ++ post ∧
      (∃ ws inner, mid = ws ++ atAtS ++ inner ++ atAtS ∧
        (∀ c ∈ ws, isPyWS c = true) ∧
        containsAtAt inner = false)) ∧
    splitHunk 100 (("@@ -1,2 +1,3 @@ context").toList)
      = some ([], ("@@ -1,2 +1,3 @@").toList, (" context").toList) := by
  constructor
  · intro w4 l pre mid post hW h
    unfold splitHunk at h
    cases hs : hunkSearch l with
    | none => rw [hs] at h; cases h
    | some se =>
      obtain ⟨s, e⟩ := se
      rw [hs] at h
      dsimp only at h
      injection h with h2
      rw [Prod.mk.injEq, Prod.mk.injEq] at h2
      obtain ⟨rfl, rfl, rfl⟩ := h2
      have hm : matchAt l s = some e := hunkSearchAux_sound l _ 0 s e hs
      simp only [matchAt] at hm
      by_cases hb : leadsWith atAtS ((l.drop s).drop (wsLen (l.drop s))) = true
      · rw [if_pos hb] at hm
        cases hk : findAtAt (((l.drop s).drop (wsLen (l.drop s))).drop 2) with
        | none => rw [hk] at hm; cases hm
        | some k =>
          rw [hk] at hm
          injection hm with hm2
          have he : e = s + wsLen (l.drop s) + 2 + k + 2 := hm2.symm
          obtain ⟨hk1, hk2, hk3⟩ := findAtAt_some hk
          set t := l.drop s with ht
          set w := wsLen t with hw
          set u := (t.drop w).drop 2 with hu
          have hat1 : (t.drop w).take 2 = atAtS := by
            have h3 := leadsWith_take hb
            simpa [atAtS] using h3
          have hat2 : (u.drop k).take 2 = atAtS := by
            have h3 := leadsWith_take hk1
            simpa [atAtS] using h3
          have hmid : t.take (e - s)
              = t.take w ++ ((t.drop w).take 2
                  ++ (u.take k ++ (u.drop k).take 2)) := by
            have e1 : e - s = w + (2 + (k + 2)) := by omega
            rw [e1, List.take_add]
            congr 1
            rw [List.take_add]
            congr 1
            rw [List.take_add]
          constructor
          · have hpremid : l.take s ++ t.take (e - s) = l.take e := by
              rw [ht, ← List.take_add]
              congr 1
              omega
            calc l = l.take e ++ l.drop e := (List.take_append_drop e l).symm
              _ = (l.take s ++ t.take (e - s)) ++ l.drop e := by rw [hpremid]
              _ = l.take s ++ t.take (e - s) ++ (l.take w4).drop e := by
                    rw [List.take_of_length_le hW]
          · refine ⟨t.take w, u.take k, ?_, ?_, take_first_no_atAt hk⟩
            · rw [hmid, hat1, hat2]
              simp [List.append_assoc]
            · intro c hc
              rw [hw, take_wsLen] at hc
              exact List.mem_takeWhile_imp hc
      · rw [if_neg hb] at hm; cases hm
  · decide

/-- Witness for C5's universally quantified part at the spec's concrete
line (window width 100 ≥ line length 23). -/
theorem c5_hunk_split_witness :
    ((("@@ -1,2 +1,3 @@ context").toList : Str).length ≤ 100 ∧
     splitHunk 100 (("@@ -1,2 +1,3 @@ context").toList)
       = some ([], ("@@ -1,2 +1,3 @@").toList, (" context").toList)) ∧
    ((("@@ -1,2 +1,3 @@ context").toList : Str)
        = [] ++ ("@@ -1,2 +1,3 @@").toList ++ (" context").toList ∧
     (∃ ws inner,
        (("@@ -1,2 +1,3 @@").toList : Str) = ws ++ atAtS ++ inner ++ atAtS ∧
        (∀ c ∈ ws, isPyWS c = true) ∧
        containsAtAt inner = false)) :=
  ⟨⟨by decide, by decide⟩,
   c5_hunk_split.1 100 (("@@ -1,2 +1,3 @@ context").toList)
     [] (("@@ -1,2 +1,3 @@").toList) ((" context").toList)
     (by decide) (by decide)⟩

/- ------------------------------------------------------------------ -/
/-! ## C7: execute_command (src/main.py 378-435)

    parts = [p.strip() for p in cmd.split(";") if p.strip()]
    new_path = current_path
    for part in parts:
        if part.startswith("git checkout"):
            _cached_path = None; _cached_branch = None
        if part == "cd" or part.startswith("cd "):
            target = "~" if part == "cd" else part[3:].strip()
            target = os.path.expanduser(target)
            candidate = target if absolute else normpath(join(new_path, target))
            if os.path.isdir(candidate): new_path = candidate
            else: curses.flash(); _show_error_curses(...)
        else:
            subprocess... (abstracted into a `shellRun` event)
    return new_path
-/

/-- Python `s.strip()` (strip whitespace at both ends). -/
def stripWS (l : Str) : Str :=
  ((l.dropWhile isPyWS).reverse.dropWhile isPyWS).reverse

/-- Part splitting `[p.strip() for p in cmd.split(";") if p.strip()]`. -/
def parseParts (cmd : Str) : List Str :=
  ((splitOnChar ';' cmd).map stripWS).filter (fun p => !p.isEmpty)

/-- The literal `"git checkout"`. -/
def gitCheckoutStr : Str :=
  ['g', 'i', 't', ' ', 'c', 'h', 'e', 'c', 'k', 'o', 'u', 't']

/-- The literal `"cd"`. -/
def cdStr : Str := ['c', 'd']

/-- Environment of `execute_command`: `home` is `$HOME` (for `~`),
`userHome` is the pwd lookup for `~user`, `isDir` is `os.path.isdir`. -/
structure CmdEnv where
  home : Str
  userHome : Str → Option Str
  isDir : Str → Bool

/-- Lowest index `≥ start` of `c` in `p` (Python `p.find(c, start)`),
`none` when absent. -/
def idxFrom (c : Char) (start : Nat) (p : Str) : Option Nat :=
  match (p.drop start).findIdx? (· = c) with
  | some j => some (start + j)
  | none => none

/-- Model of `posixpath.expanduser`. -/
def expanduser (env : CmdEnv) (p : Str) : Str :=
  if !(leadsWith ['~'] p) then p
  else
    let i := match idxFrom '/' 1 p with
             | some j => j
             | none => p.length
    let uh0 := if i = 1 then some env.home
               else env.userHome ((p.drop 1).take (i - 1))
    match uh0 with
    | none => p
    | some uh1 =>
      let uh := rstripChar '/' uh1
      let r := uh ++ p.drop i
      if r.isEmpty then ['/'] else r

/-- The navigation state plus the two branch-cache globals that
`execute_command` touches. -/
structure NavSt where
  path : Str
  cachedPath : Option Str
  cachedBranch : Option Str
deriving DecidableEq, Repr

/-- The target of a `cd` sub-command, after `~` expansion. -/
def cdTarget (env : CmdEnv) (p : Str) : Str :=
  if p = cdStr then expanduser env ['~']
  else expanduser env (stripWS (p.drop 3))

/-- The candidate directory of a `cd` sub-command: absolute targets stand,
relative ones resolve against the current path and are normalised. -/
def cdCandidate (env : CmdEnv) (path p : Str) : Str :=
  let target := cdTarget env p
  if isabs target then target else normpath (joinPath path target)

/-- One sub-command of the `execute_command` loop.  The subprocess call and
its pager display are abstracted into a `shellRun` event (they do not touch
the navigation path). -/
def execPart (env : CmdEnv) (s : NavSt) (p : Str) : NavSt × List Event :=
  let s1 := if leadsWith gitCheckoutStr p
            then { s with cachedPath := none, cachedBranch := none } else s
  if p = cdStr ∨ leadsWith cdSpStr p = true then
    let candidate := cdCandidate env s1.path p
    if env.isDir candidate then ({ s1 with path := candidate }, [])
    else (s1, [Event.flash, Event.cdError candidate])
  else
    (s1, [Event.shellRun p s1.path])

/-- The `for part in parts` loop, threading the state and collecting
events. -/
def execParts (env : CmdEnv) (s : NavSt) : List Str → NavSt × List Event
  | [] => (s, [])
  | p :: rest =>
    ((execParts env (execPart env s p).1 rest).1,
     (execPart env s p).2 ++ (execParts env (execPart env s p).1 rest).2)

/-- The function `execute_command`. -/
def execute_command (env : CmdEnv) (cmd : Str) (s : NavSt) :
    NavSt × List Event :=
  execParts env s (parseParts cmd)

theorem execParts_append (env : CmdEnv) (s : NavSt) (l1 l2 : List Str) :
    execParts env s (l1 ++ l2)
      = ((execParts env (execParts env s l1).1 l2).1,
         (execParts env s l1).2
           ++ (execParts env (execParts env s l1).1 l2).2) := by
  induction l1 generalizing s with
  | nil => simp [execParts]
  | cons p ps ih =>
    simp [execParts, ih, List.append_assoc]

/-- A `cd` sub-command never carries the `"git checkout"` prefix. -/
theorem cd_not_git {t : Str} (hcd : t = cdStr ∨ leadsWith cdSpStr t = true) :
    leadsWith gitCheckoutStr t = false := by
  rcases hcd with rfl | h
  · decide
  · cases t with
    | nil => simp [leadsWith] at h
    | cons c cs =>
      have hc : c = 'c' := by
        simp only [cdSpStr, leadsWith, Bool.and_eq_true, decide_eq_true_eq] at h
        exact h.1.symm
      subst hc
      simp [gitCheckoutStr, leadsWith]

/-- Claim C7: in a committed non-filter buffer split on `";"`, a `cd`
sub-command whose resolved candidate is not an existing directory leaves the
navigation state unchanged, surfaces a flash plus error (without
terminating), and aborts only itself: the remaining sub-commands are still
dispatched from the unchanged state. -/
theorem c7_cd_failure_isolated (env : CmdEnv) (s : NavSt) (cmd : Str)
    (ps1 rest : List Str) (t : Str)
    (hsplit : parseParts cmd = ps1 ++ t :: rest)
    (hcd : t = cdStr ∨ leadsWith cdSpStr t = true)
    (hbad : env.isDir (cdCandidate env (execParts env s ps1).1.path t)
              = false) :
    (execPart env (execParts env s ps1).1 t).1 = (execParts env s ps1).1 ∧
    (execute_command env cmd s).1
      = (execParts env (execParts env s ps1).1 rest).1 ∧
    (execute_command env cmd s).2
      = (execParts env s ps1).2
        ++ Event.flash
          :: Event.cdError (cdCandidate env (execParts env s ps1).1.path t)
          :: (execParts env (execParts env s ps1).1 rest).2 := by
  have hgit : leadsWith gitCheckoutStr t = false := cd_not_git hcd
  have hp : execPart env (execParts env s ps1).1 t
      = ((execParts env s ps1).1,
         [Event.flash,
          Event.cdError (cdCandidate env (execParts env s ps1).1.path t)]) := by
    unfold execPart
    rw [hgit]
    simp only [Bool.false_eq_true, if_false]
    rw [if_pos hcd, hbad]
    simp
  refine ⟨by rw [hp], ?_, ?_⟩ <;>
    · unfold execute_command
      rw [hsplit, execParts_append]
      simp [execParts, hp]

/-- Command environment for the C7 witness: only `/r` is a directory. -/
def cmdEnvW : CmdEnv :=
  { home := ("/h".toList), userHome := fun _ => none,
    isDir := fun d => d == ("/r".toList) }

/-- Witness for C7 at the buffer `"ls ; cd nope ; pwd"` from `/r`: the `cd`
target does not exist, the path is unchanged, and `pwd` still runs. -/
theorem c7_cd_failure_isolated_witness :
    (parseParts ("ls ; cd nope ; pwd".toList)
       = [("ls".toList)] ++ ("cd nope".toList) :: [("pwd".toList)] ∧
     (("cd nope".toList : Str) = cdStr
        ∨ leadsWith cdSpStr ("cd nope".toList) = true) ∧
     cmdEnvW.isDir (cdCandidate cmdEnvW
        (execParts cmdEnvW ⟨("/r".toList), none, none⟩ [("ls".toList)]).1.path
        ("cd nope".toList)) = false) ∧
    ((execPart cmdEnvW
        (execParts cmdEnvW ⟨("/r".toList), none, none⟩ [("ls".toList)]).1
        ("cd nope".toList)).1
       = (execParts cmdEnvW ⟨("/r".toList), none, none⟩ [("ls".toList)]).1 ∧
     (execute_command cmdEnvW ("ls ; cd nope ; pwd".toList)
        ⟨("/r".toList), none, none⟩).1
       = (execParts cmdEnvW
            (execParts cmdEnvW ⟨("/r".toList), none, none⟩ [("ls".toList)]).1
            [("pwd".toList)]).1 ∧
     (execute_command cmdEnvW ("ls ; cd nope ; pwd".toList)
        ⟨("/r".toList), none, none⟩).2
       = (execParts cmdEnvW ⟨("/r".toList), none, none⟩ [("ls".toList)]).2
         ++ Event.flash
           :: Event.cdError (cdCandidate cmdEnvW
                (execParts cmdEnvW ⟨("/r".toList), none, none⟩
                  [("ls".toList)]).1.path ("cd nope".toList))
           :: (execParts cmdEnvW
                (execParts cmdEnvW ⟨("/r".toList), none, none⟩
                  [("ls".toList)]).1 [("pwd".toList)]).2) :=
  ⟨⟨by decide, by decide, by decide⟩,
   c7_cd_failure_isolated cmdEnvW ⟨("/r".toList), none, none⟩
     ("ls ; cd nope ; pwd".toList) [("ls".toList)] [("pwd".toList)]
     ("cd nope".toList) (by decide) (by decide) (by decide)⟩

/- ------------------------------------------------------------------ -/
/-! ## C8 and C10: paste_entity (src/main.py 40-74)

    src = _clipboard.get("path")
    if not src: _show_status("Clipboard is empty."); return
    base = os.path.basename(src.rstrip(os.sep))
    name, ext = os.path.splitext(base)
    paste_name = base if cut else f"{name}-copy{ext}"
    dest = os.path.join(current_path, paste_name)
    try:
        move(src, dest) if cut else (copytree | copy2)(src, dest)
        if cut: clipboard cleared
        _show_status(...)
    except Exception: _show_error_curses(...)
-/

/-- Model of `os.path.basename`: the part after the last `/`. -/
def basename (p : Str) : Str :=
  (p.reverse.takeWhile (fun c => !(c == '/'))).reverse

/-- Model of `os.path.splitext`: split at the last dot of the base name, unless the
base name up to it is all dots.  (Python scans `base[sep+1 .. dot)` for a
non-dot character; only existence matters, which `any` captures.) -/
def splitext (p : Str) : Str × Str :=
  let sepI := lastIdxInt '/' p
  let dotI := lastIdxInt '.' p
  if sepI < dotI then
    if ((p.drop (sepI + 1).toNat).take (dotI - sepI - 1).toNat).any
        (fun c => !(c == '.')) then
      (p.take dotI.toNat, p.drop dotI.toNat)
    else (p, [])
  else (p, [])

/-- The process-wide clipboard slot. -/
structure Clipboard where
  path : Option Str
  cut : Bool
deriving DecidableEq, Repr

/-- The filesystem call a paste performs. -/
inductive FsOp
  | move (src dest : Str)
  | copyTree (src dest : Str)
  | copyFile (src dest : Str)
deriving DecidableEq, Repr

/-- Filesystem collaborators of `paste_entity`: `isDirFs` is
`os.path.isdir`; `opResult` is the outcome of the `shutil` call (`error`
when it raises). -/
structure FsEnv where
  isDirFs : Str → Bool
  opResult : FsOp → Except Str Unit

/-- The literal `"-copy"` marker. -/
def copyMark : Str := ['-', 'c', 'o', 'p', 'y']

/-- The destination name a paste uses: the original base name for a cut,
the copy-marker name for a copy. -/
def pasteName (clip : Clipboard) (src : Str) : Str :=
  let base := basename (rstripChar '/' src)
  if clip.cut then base
  else (splitext base).1 ++ copyMark ++ (splitext base).2

/-- The filesystem call a paste attempts. -/
def pasteOpOf (env : FsEnv) (clip : Clipboard) (cur src : Str) : FsOp :=
  let dest := joinPath cur (pasteName clip src)
  if clip.cut then FsOp.move src dest
  else if env.isDirFs src then FsOp.copyTree src dest
  else FsOp.copyFile src dest

/-- The function `paste_entity`: returns the new clipboard, the filesystem call attempted
(if any), and the displayed events. -/
def paste_entity (env : FsEnv) (clip : Clipboard) (cur : Str) :
    Clipboard × Option FsOp × List Event :=
  match clip.path with
  | none => (clip, none, [Event.clipboardEmpty])
  | some src =>
    if src.isEmpty then (clip, none, [Event.clipboardEmpty])
    else
      let nm := pasteName clip src
      let op := pasteOpOf env clip cur src
      match env.opResult op with
      | Except.ok _ =>
        ((if clip.cut then { path := none, cut := false } else clip),
         some op,
         [(if clip.cut then Event.statusMoved nm cur
           else Event.statusCopied nm cur)])
      | Except.error _ => (clip, some op, [Event.pasteError])

/-- A filesystem in which every operation succeeds and nothing is a
directory. -/
def fsEnvOk : FsEnv :=
  { isDirFs := fun _ => false, opResult := fun _ => Except.ok () }

/-- Claim C8 is violated by the code: two consecutive copy-pastes of
`/a/f.txt` into `/b` both attempt the SAME destination `/b/f-copy.txt` — the
code derives the copy-marker name unconditionally and has no collision-safe
alternative, so the destinations are not distinct. -/
theorem c8_copy_paste_same_name_cex :
    (paste_entity fsEnvOk { path := some ("/a/f.txt".toList), cut := false }
        ("/b".toList)).2.1
      = some (FsOp.copyFile ("/a/f.txt".toList) ("/b/f-copy.txt".toList)) ∧
    (paste_entity fsEnvOk
        (paste_entity fsEnvOk
          { path := some ("/a/f.txt".toList), cut := false }
          ("/b".toList)).1 ("/b".toList)).2.1
      = some (FsOp.copyFile ("/a/f.txt".toList) ("/b/f-copy.txt".toList)) := by
  refine ⟨by decide, by decide⟩

/-- Claim C8, amended: paste-after-copy is repeatable — with `is_cut = false`
and a successful filesystem, the clipboard is left intact and a second paste
behaves identically, both attempting the same copy-marker destination name
(no collision-safe alternative exists in the code) — while paste with
`is_cut = true` moves the source under its original base name, clears the
clipboard, and a second paste reports that the clipboard is empty. -/
theorem c8_paste_semantics (env : FsEnv) (clip : Clipboard) (cur src : Str)
    (hp : clip.path = some src) (hne : src.isEmpty = false)
    (hok : ∀ op, env.opResult op = Except.ok ()) :
    (clip.cut = false →
      (paste_entity env clip cur).1 = clip ∧
      (paste_entity env clip cur).2.1 = some (pasteOpOf env clip cur src) ∧
      pasteName clip src
        = (splitext (basename (rstripChar '/' src))).1 ++ copyMark
          ++ (splitext (basename (rstripChar '/' src))).2 ∧
      paste_entity env (paste_entity env clip cur).1 cur
        = paste_entity env clip cur) ∧
    (clip.cut = true →
      (paste_entity env clip cur).1 = { path := none, cut := false } ∧
      (paste_entity env clip cur).2.1
        = some (FsOp.move src
            (joinPath cur (basename (rstripChar '/' src)))) ∧
      (paste_entity env { path := none, cut := false } cur).2.2
        = [Event.clipboardEmpty]) := by
  obtain ⟨cp, cc⟩ := clip
  simp only [Clipboard.path] at hp
  subst hp
  constructor
  · intro hcut
    simp only [Clipboard.cut] at hcut
    subst hcut
    refine ⟨?_, ?_, ?_, ?_⟩ <;>
      simp [paste_entity, hne, hok, pasteOpOf, pasteName]
  · intro hcut
    simp only [Clipboard.cut] at hcut
    subst hcut
    refine ⟨?_, ?_, ?_⟩ <;>
      simp [paste_entity, hne, hok, pasteOpOf, pasteName]

/-- Witness for the amended C8 at clipboard `/a/f.txt` (copy) into `/b`. -/
theorem c8_paste_semantics_witness :
    (({ path := some ("/a/f.txt".toList), cut := false } : Clipboard).path
       = some ("/a/f.txt".toList) ∧
     (("/a/f.txt".toList : Str)).isEmpty = false ∧
     ∀ op, fsEnvOk.opResult op = Except.ok ()) ∧
    ((({ path := some ("/a/f.txt".toList), cut := false } : Clipboard).cut
        = false →
      (paste_entity fsEnvOk
          { path := some ("/a/f.txt".toList), cut := false }
          ("/b".toList)).1
        = { path := some ("/a/f.txt".toList), cut := false } ∧
      (paste_entity fsEnvOk
          { path := some ("/a/f.txt".toList), cut := false }
          ("/b".toList)).2.1
        = some (pasteOpOf fsEnvOk
            { path := some ("/a/f.txt".toList), cut := false }
            ("/b".toList) ("/a/f.txt".toList)) ∧
      pasteName { path := some ("/a/f.txt".toList), cut := false }
          ("/a/f.txt".toList)
        = (splitext (basename (rstripChar '/' ("/a/f.txt".toList)))).1
          ++ copyMark
          ++ (splitext (basename (rstripChar '/' ("/a/f.txt".toList)))).2 ∧
      paste_entity fsEnvOk
          (paste_entity fsEnvOk
            { path := some ("/a/f.txt".toList), cut := false }
            ("/b".toList)).1 ("/b".toList)
        = paste_entity fsEnvOk
            { path := some ("/a/f.txt".toList), cut := false }
            ("/b".toList)) ∧
     (({ path := some ("/a/f.txt".toList), cut := false } : Clipboard).cut
        = true →
      (paste_entity fsEnvOk
          { path := some ("/a/f.txt".toList), cut := false }
          ("/b".toList)).1
        = { path := none, cut := false } ∧
      (paste_entity fsEnvOk
          { path := some ("/a/f.txt".toList), cut := false }
          ("/b".toList)).2.1
        = some (FsOp.move ("/a/f.txt".toList)
            (joinPath ("/b".toList)
              (basename (rstripChar '/' ("/a/f.txt".toList))))) ∧
      (paste_entity fsEnvOk { path := none, cut := false }
          ("/b".toList)).2.2
        = [Event.clipboardEmpty])) :=
  ⟨⟨rfl, by decide, fun op => rfl⟩,
   c8_paste_semantics fsEnvOk
     { path := some ("/a/f.txt".toList), cut := false }
     ("/b".toList) ("/a/f.txt".toList) rfl (by decide) (fun op => rfl)⟩

/-- Claim C10: if the filesystem call inside a paste raises, the clipboard
is exactly what it was before the call (in particular a cut entry is cleared
only after a successful move, so a failed cut-paste can be retried), and
only an error box is shown. -/
theorem c10_failed_paste_preserves_clipboard (env : FsEnv)
    (clip : Clipboard) (cur src : Str) (err : Str)
    (hp : clip.path = some src) (hne : src.isEmpty = false)
    (hfail : env.opResult (pasteOpOf env clip cur src) = Except.error err) :
    (paste_entity env clip cur).1 = clip ∧
    (paste_entity env clip cur).2.1 = some (pasteOpOf env clip cur src) ∧
    (paste_entity env clip cur).2.2 = [Event.pasteError] := by
  obtain ⟨cp, cc⟩ := clip
  simp only [Clipboard.path] at hp
  subst hp
  refine ⟨?_, ?_, ?_⟩ <;> simp [paste_entity, hne, hfail]

/-- A filesystem in which every operation raises. -/
def fsEnvFail : FsEnv :=
  { isDirFs := fun _ => false,
    opResult := fun _ => Except.error ['E'] }

/-- Witness for C10 at a cut clipboard entry `/a/f.txt` whose move fails:
the clipboard still holds the entry afterwards. -/
theorem c10_failed_paste_preserves_clipboard_witness :
    (({ path := some ("/a/f.txt".toList), cut := true } : Clipboard).path
       = some ("/a/f.txt".toList) ∧
     (("/a/f.txt".toList : Str)).isEmpty = false ∧
     fsEnvFail.opResult (pasteOpOf fsEnvFail
        { path := some ("/a/f.txt".toList), cut := true }
        ("/b".toList) ("/a/f.txt".toList)) = Except.error ['E']) ∧
    ((paste_entity fsEnvFail
        { path := some ("/a/f.txt".toList), cut := true } ("/b".toList)).1
       = { path := some ("/a/f.txt".toList), cut := true } ∧
     (paste_entity fsEnvFail
        { path := some ("/a/f.txt".toList), cut := true } ("/b".toList)).2.1
       = some (pasteOpOf fsEnvFail
           { path := some ("/a/f.txt".toList), cut := true }
           ("/b".toList) ("/a/f.txt".toList)) ∧
     (paste_entity fsEnvFail
        { path := some ("/a/f.txt".toList), cut := true } ("/b".toList)).2.2
       = [Event.pasteError]) :=
  ⟨⟨rfl, by decide, rfl⟩,
   c10_failed_paste_preserves_clipboard fsEnvFail
     { path := some ("/a/f.txt".toList), cut := true }
     ("/b".toList) ("/a/f.txt".toList) ['E'] rfl (by decide) rfl⟩
